import Mathlib

/-!
# Verification of the codeguru ingestion scripts

Shallow embedding of the two knowledge-base ingestion pipelines:

* `src/scripts/ingest_leetcode_data.py` — `process_data`: normalizes Kaggle CSV
  rows into a KB dict keyed by lowercase title.
* `src/scripts/ingest_hf_leetcode.py` — `extract_method_signature` and
  `process_hf_dataset`: normalizes HuggingFace records, merging onto an
  optional existing KB, enriching entries with solution code and a
  regex-extracted method signature.

Python dicts are modelled as association lists with first-key lookup and
update-in-place-or-append assignment (Python insertion-order semantics).
Record field values are modelled as `Option String` (`none` = key absent from
the record, so `dict.get(k, default)` is `Option.getD`); `str()` applied to a
string is the identity.  Python `str.strip()` / `.lower()` are embedded for
the ASCII range (all inputs in this code base are ASCII).
-/

/-! ## Python string primitives -/

/-- The ASCII characters matched by Python's `\s` and stripped by `str.strip()`. -/
def isWsChar (c : Char) : Bool :=
  c = ' ' || c = '\t' || c = '\n' || c = '\r' || c = '\x0b' || c = '\x0c'

/-- Python `str.strip()` (ASCII whitespace). -/
def pyStrip (s : String) : String :=
  ⟨((s.data.dropWhile isWsChar).reverse.dropWhile isWsChar).reverse⟩

/-- Python `str.lower()` (ASCII case mapping; titles in this data are ASCII). -/
def pyLower (s : String) : String :=
  ⟨s.data.map Char.toLower⟩

/-- Helper for `pySplitComma`: accumulate the current piece (reversed). -/
def splitCommaAux : List Char → List Char → List String
  | [], acc => [⟨acc.reverse⟩]
  | c :: rest, acc =>
    if c = ',' then ⟨acc.reverse⟩ :: splitCommaAux rest []
    else splitCommaAux rest (c :: acc)

/-- Python `s.split(',')`: split on every comma; `"".split(',') == ['']`. -/
def pySplitComma (s : String) : List String :=
  splitCommaAux s.data []

/-- Python `s.rstrip(':')`: drop all trailing colons. -/
def pyRstripColon (s : String) : String :=
  ⟨(s.data.reverse.dropWhile (fun c => c = ':')).reverse⟩

/-- Python `a or b` on strings: `a` if non-empty (truthy), else `b`. -/
def pyOr (a b : String) : String :=
  if a = "" then b else a

/-! ## Python dicts as association lists -/

/-- First-match lookup, `d.get(k)` on a dict with unique keys. -/
def pyGet {α : Type} (d : List (String × α)) (k : String) : Option α :=
  match d with
  | [] => none
  | (k', v) :: rest => if k' = k then some v else pyGet rest k

/-- Python `d[k] = v`: overwrite in place if the key exists, else append. -/
def pySet {α : Type} (d : List (String × α)) (k : String) (v : α) :
    List (String × α) :=
  match d with
  | [] => [(k, v)]
  | (k', v') :: rest => if k' = k then (k, v) :: rest else (k', v') :: pySet rest k v

/-- A JSON-ish value stored in a KB entry: the scripts only ever store strings
and lists of strings. -/
inductive Value where
  | vStr : String → Value
  | vList : List String → Value
deriving DecidableEq, Repr

/-- One KB entry — a Python dict from field name to value. -/
abbrev Entry := List (String × Value)

/-- The knowledge base — a Python dict from lowercase title key to entry. -/
abbrev KB := List (String × Entry)

/-! ## Signature extractor (`ingest_hf_leetcode.py`, lines 11–25)

`extract_method_signature` runs
`re.search(r'def\s+([a-zA-Z_][a-zA-Z0-9_]*)\s*\([^)]*\)(?:\s*->\s*[^:]+)?:', code)`.
We embed Python `re` semantics directly: leftmost starting position wins, and
at a position, greedy repetition with full backtracking.  The combinators
below implement greedy star/plus over a character class in
continuation-passing style (longest consumption attempted first, shorter
splits on failure of the continuation), which is exactly the backtracking
order of the Python engine for this pattern. -/

/-- Greedy `[c]*` over class `p`: try consuming the next matching character
first; if the continuation fails every longer split, fall back to stopping
here. -/
def starCls {α : Type} (p : Char → Bool) : List Char → (List Char → Option α) → Option α
  | [], k => k []
  | c :: rest, k =>
    if p c then
      match starCls p rest k with
      | some v => some v
      | none => k (c :: rest)
    else k (c :: rest)

/-- Greedy `[c]+`: one mandatory character, then `starCls`. -/
def plusCls {α : Type} (p : Char → Bool) (s : List Char) (k : List Char → Option α) :
    Option α :=
  match s with
  | [] => none
  | c :: rest => if p c then starCls p rest k else none

/-- Greedy capturing `[c]*`: like `starCls` but the continuation also receives
the consumed characters (used for the identifier capture group). -/
def starClsCap {α : Type} (p : Char → Bool) : List Char →
    (List Char → List Char → Option α) → Option α
  | [], k => k [] []
  | c :: rest, k =>
    if p c then
      match starClsCap p rest (fun cs r => k (c :: cs) r) with
      | some v => some v
      | none => k [] (c :: rest)
    else k [] (c :: rest)

/-- `[a-zA-Z_]` — first character of the captured identifier. -/
def isIdentStart (c : Char) : Bool :=
  ('a' ≤ c && c ≤ 'z') || ('A' ≤ c && c ≤ 'Z') || c = '_'

/-- `[a-zA-Z0-9_]` — remaining characters of the captured identifier. -/
def isIdentChar (c : Char) : Bool :=
  isIdentStart c || ('0' ≤ c && c ≤ '9')

/-- Try the whole pattern anchored at the start of `s`.  On success returns
(captured group 1 = method name, remaining suffix after the match); group 0 is
recovered from the suffix length.  The pattern, piece by piece:
`def` · `\s+` · `([a-zA-Z_][a-zA-Z0-9_]*)` · `\s*` · `\(` · `[^)]*` · `\)` ·
`(?:\s*->\s*[^:]+)?` · `:`. -/
def matchSigAt (s : List Char) : Option (List Char × List Char) :=
  match s with
  | 'd' :: 'e' :: 'f' :: rest =>
    plusCls isWsChar rest (fun s1 =>
      match s1 with
      | [] => none
      | c0 :: s2 =>
        if isIdentStart c0 then
          starClsCap isIdentChar s2 (fun nameTail s3 =>
            starCls isWsChar s3 (fun s4 =>
              match s4 with
              | '(' :: s5 =>
                starCls (fun c => !(c = ')')) s5 (fun s6 =>
                  match s6 with
                  | ')' :: s7 =>
                    -- `(?:\s*->\s*[^:]+)?:` — greedy option: try the
                    -- return-type group first, else require `:` directly.
                    let colonK : List Char → Option (List Char × List Char) :=
                      fun sx =>
                        match sx with
                        | ':' :: s9 => some (c0 :: nameTail, s9)
                        | _ => none
                    match starCls isWsChar s7 (fun s8 =>
                        match s8 with
                        | '-' :: '>' :: s9 =>
                          starCls isWsChar s9 (fun s10 =>
                            plusCls (fun c => !(c = ':')) s10 colonK)
                        | _ => none) with
                    | some v => some v
                    | none => colonK s7
                  | _ => none)
              | _ => none))
        else none)
  | _ => none

/-- `re.search`: scan starting positions left to right; at the first position
where the pattern matches, return (group 1, group 0).  (On the empty text the
single anchored attempt fails: `matchSigAt [] = none`.) -/
def reSearchSig : List Char → Option (List Char × List Char)
  | [] => none
  | c :: rest =>
    match matchSigAt (c :: rest) with
    | some (name, suffix) =>
      some (name, (c :: rest).take ((c :: rest).length - suffix.length))
    | none => reSearchSig rest

/-- Result of `extract_method_signature`: the dict
`{'method_name': ..., 'full_signature': ...}`. -/
structure SigInfo where
  method_name : String
  full_signature : String
deriving DecidableEq, Repr

/-- `extract_method_signature(code)` (`ingest_hf_leetcode.py`, lines 11–25):
`if not code: return None`; then `re.search` with the pattern above; on a
match return the captured name and `match.group(0).rstrip(':')`. -/
def extract_method_signature (code : String) : Option SigInfo :=
  if code = "" then none
  else
    match reSearchSig code.data with
    | some (name, g0) => some ⟨⟨name⟩, pyRstripColon ⟨g0⟩⟩
    | none => none

/-! ## HuggingFace pipeline (`ingest_hf_leetcode.py`, lines 51–86) -/

/-- One record of the `cassanof/leetcode-solutions` dataset.  Only the fields
the script reads are modelled; `none` means the key is absent. -/
structure HFItem where
  problem_title : Option String := none
  number : Option String := none
  difficulty : Option String := none
  post_title : Option String := none
  python_solutions : Option String := none
deriving Repr

/-- Lines 62–72: `entry = existing_kb[title_key].copy()` when the key is
present, else the freshly created dict. -/
def hfBaseEntry (existing_kb : KB) (item : HFItem) (title : String) : Entry :=
  match pyGet existing_kb (pyLower title) with
  | some e => e
  | none =>
    [("id", Value.vStr (item.number.getD "")),
     ("title", Value.vStr title),
     ("difficulty", Value.vStr (item.difficulty.getD "Medium")),
     ("tags", Value.vList []),
     ("description", Value.vStr (item.post_title.getD ""))]

/-- Lines 74–84: `if code:` store `solution_code`, then when the signature
extractor finds a match store `method_name` and `method_signature`. -/
def hfEnrich (entry : Entry) (code : String) : Entry :=
  if code = "" then entry
  else
    let entry := pySet entry "solution_code" (Value.vStr code)
    match extract_method_signature code with
    | some sig =>
      pySet (pySet entry "method_name" (Value.vStr sig.method_name))
        "method_signature" (Value.vStr sig.full_signature)
    | none => entry

/-- Lines 56–84 for one record: resolve the title (skip when empty after
stripping), build the base entry, enrich it; returns the key/entry pair to
store, or `none` when the record is skipped. -/
def hfEntryKV (existing_kb : KB) (item : HFItem) : Option (String × Entry) :=
  let title := pyStrip (item.problem_title.getD "")
  if title = "" then none
  else
    some (pyLower title,
      hfEnrich (hfBaseEntry existing_kb item title) (item.python_solutions.getD ""))

/-- Line 86: `solutions_kb[title_key] = entry` (or no change when skipped). -/
def processHFRecord (existing_kb : KB) (kb : KB) (item : HFItem) : KB :=
  match hfEntryKV existing_kb item with
  | none => kb
  | some (k, e) => pySet kb k e

/-- `process_hf_dataset`, the record loop: fold the per-record store over the
dataset, starting from the empty `solutions_kb`; `existing_kb` is read-only
throughout the pass. -/
def process_hf_dataset (existing_kb : KB) (items : List HFItem) : KB :=
  items.foldl (processHFRecord existing_kb) []

/-! ## Kaggle pipeline (`ingest_leetcode_data.py`, lines 54–77) -/

/-- One row of the Kaggle CSV (column names already lowercased by line 51).
Only the columns the script reads are modelled; `none` means absent. -/
structure KRow where
  title : Option String := none
  question_title : Option String := none
  id : Option String := none
  frontend_question_id : Option String := none
  difficulty : Option String := none
  tags : Option String := none
  topic_tags : Option String := none
  description : Option String := none
  question_text : Option String := none
  solution : Option String := none
  python_solution : Option String := none
deriving Repr

/-- Lines 58–76 for one row: resolve the title (skip when empty after
stripping), build the entry dict, then clean up the tags in place; returns
the key/entry pair to store, or `none` when the row is skipped. -/
def kEntryKV (row : KRow) : Option (String × Entry) :=
  let title := pyStrip (pyOr (row.title.getD "") (row.question_title.getD ""))
  if title = "" then none
  else
    let problem_id := pyStrip (pyOr (row.id.getD "") (row.frontend_question_id.getD ""))
    let rawTags := pySplitComma (pyOr (row.tags.getD "") (row.topic_tags.getD ""))
    let entry : Entry :=
      [("id", Value.vStr problem_id),
       ("title", Value.vStr title),
       ("difficulty", Value.vStr (row.difficulty.getD "Medium")),
       ("tags", Value.vList rawTags),
       ("description", Value.vStr (pyOr (row.description.getD "") (row.question_text.getD ""))),
       ("solution", Value.vStr (pyOr (row.solution.getD "") (row.python_solution.getD "")))]
    let entry := pySet entry "tags"
      (Value.vList ((rawTags.filter (fun t => pyStrip t ≠ "")).map pyStrip))
    some (pyLower title, entry)

/-- Line 76: `kb[title.lower()] = entry` (or no change when skipped). -/
def processKRow (kb : KB) (row : KRow) : KB :=
  match kEntryKV row with
  | none => kb
  | some (k, e) => pySet kb k e

/-- `process_data`, the row loop: fold the per-row store over the CSV rows,
starting from the empty KB. -/
def process_data (rows : List KRow) : KB :=
  rows.foldl processKRow []

/-! ## Dictionary lemmas -/

theorem pyGet_pySet {α : Type} (d : List (String × α)) (k k' : String) (v : α) :
    pyGet (pySet d k v) k' = if k = k' then some v else pyGet d k' := by
  induction d with
  | nil => simp [pySet, pyGet]
  | cons p rest ih =>
    obtain ⟨k0, v0⟩ := p
    by_cases h : k0 = k
    · subst h
      have hset : pySet ((k0, v0) :: rest) k0 v = (k0, v) :: rest := by
        simp [pySet]
      rw [hset]
      by_cases h' : k0 = k'
      · subst h'
        simp [pyGet]
      · simp [pyGet, h']
    · have hset : pySet ((k0, v0) :: rest) k v = (k0, v0) :: pySet rest k v := by
        simp [pySet, h]
      rw [hset]
      by_cases h' : k0 = k'
      · subst h'
        have hk : ¬ (k = k0) := fun hh => h hh.symm
        simp [pyGet, hk]
      · simp [pyGet, h', ih]

theorem pyGet_pySet_self {α : Type} (d : List (String × α)) (k : String) (v : α) :
    pyGet (pySet d k v) k = some v := by
  simp [pyGet_pySet]

theorem pyGet_pySet_ne {α : Type} (d : List (String × α)) (k k' : String) (v : α)
    (h : k ≠ k') : pyGet (pySet d k v) k' = pyGet d k' := by
  simp [pyGet_pySet, h]

/-! ## Enrichment lemmas -/

/-- `hfEnrich` touches only the three freshly computed fields. -/
theorem hfEnrich_frame (e : Entry) (code : String) (f : String)
    (h1 : f ≠ "solution_code") (h2 : f ≠ "method_name") (h3 : f ≠ "method_signature") :
    pyGet (hfEnrich e code) f = pyGet e f := by
  unfold hfEnrich
  split_ifs with hc
  · rfl
  · cases hsig : extract_method_signature code with
    | none => simp [pyGet_pySet_ne _ _ _ _ (Ne.symm h1)]
    | some sig =>
      simp [pyGet_pySet_ne _ _ _ _ (Ne.symm h1), pyGet_pySet_ne _ _ _ _ (Ne.symm h2),
        pyGet_pySet_ne _ _ _ _ (Ne.symm h3)]

/-- When the solution text is non-empty the enriched entry records it under
`solution_code`. -/
theorem hfEnrich_solution_code (e : Entry) (code : String) (hc : code ≠ "") :
    pyGet (hfEnrich e code) "solution_code" = some (Value.vStr code) := by
  unfold hfEnrich
  split_ifs with h
  · exact absurd h hc
  · cases hsig : extract_method_signature code with
    | none => simp [pyGet_pySet_self]
    | some sig =>
      rw [pyGet_pySet_ne, pyGet_pySet_ne, pyGet_pySet_self] <;> decide

/-- When signature extraction fails the method fields are untouched. -/
theorem hfEnrich_no_sig (e : Entry) (code : String)
    (hsig : extract_method_signature code = none) :
    pyGet (hfEnrich e code) "method_name" = pyGet e "method_name" ∧
    pyGet (hfEnrich e code) "method_signature" = pyGet e "method_signature" := by
  unfold hfEnrich
  split_ifs with hc
  · exact ⟨rfl, rfl⟩
  · rw [hsig]
    constructor <;> rw [pyGet_pySet_ne] <;> decide

/-- A record with a usable title is stored at its lowercase-title key, as the
enriched base entry. -/
theorem processHFRecord_stored (ekb kb : KB) (item : HFItem)
    (h : pyStrip (item.problem_title.getD "") ≠ "") :
    pyGet (processHFRecord ekb kb item) (pyLower (pyStrip (item.problem_title.getD ""))) =
      some (hfEnrich (hfBaseEntry ekb item (pyStrip (item.problem_title.getD "")))
        (item.python_solutions.getD "")) := by
  simp only [processHFRecord, hfEntryKV, h, if_false, ite_false]
  simp [h, pyGet_pySet_self]

/-- The entry stored by `processKRow` for a row with a usable title, spelled
out field by field. -/
theorem kEntryKV_fields (row : KRow)
    (h : pyStrip (pyOr (row.title.getD "") (row.question_title.getD "")) ≠ "") :
    kEntryKV row = some
      (pyLower (pyStrip (pyOr (row.title.getD "") (row.question_title.getD ""))),
       [("id", Value.vStr (pyStrip (pyOr (row.id.getD "") (row.frontend_question_id.getD "")))),
        ("title", Value.vStr (pyStrip (pyOr (row.title.getD "") (row.question_title.getD "")))),
        ("difficulty", Value.vStr (row.difficulty.getD "Medium")),
        ("tags", Value.vList (((pySplitComma (pyOr (row.tags.getD "") (row.topic_tags.getD ""))).filter
          (fun t => pyStrip t ≠ "")).map pyStrip)),
        ("description", Value.vStr (pyOr (row.description.getD "") (row.question_text.getD ""))),
        ("solution", Value.vStr (pyOr (row.solution.getD "") (row.python_solution.getD "")))]) := by
  simp only [kEntryKV]
  rw [if_neg h]
  rfl

/-- A row with a usable title is stored at its lowercase-title key. -/
theorem processKRow_stored (kb : KB) (row : KRow)
    (h : pyStrip (pyOr (row.title.getD "") (row.question_title.getD "")) ≠ "") :
    pyGet (processKRow kb row)
        (pyLower (pyStrip (pyOr (row.title.getD "") (row.question_title.getD "")))) =
      some
      [("id", Value.vStr (pyStrip (pyOr (row.id.getD "") (row.frontend_question_id.getD "")))),
       ("title", Value.vStr (pyStrip (pyOr (row.title.getD "") (row.question_title.getD "")))),
       ("difficulty", Value.vStr (row.difficulty.getD "Medium")),
       ("tags", Value.vList (((pySplitComma (pyOr (row.tags.getD "") (row.topic_tags.getD ""))).filter
         (fun t => pyStrip t ≠ "")).map pyStrip)),
       ("description", Value.vStr (pyOr (row.description.getD "") (row.question_text.getD ""))),
       ("solution", Value.vStr (pyOr (row.solution.getD "") (row.python_solution.getD "")))] := by
  simp only [processKRow, kEntryKV_fields row h]
  exact pyGet_pySet_self _ _ _

/-! ## Claims -/

/-- C1: for a title key already present in the existing KB, the merge starts
from a copy of the existing entry and overlays only the freshly computed
fields (`solution_code`, and when a signature is found `method_name` /
`method_signature`); every other field of the existing entry is unchanged.
Concretely, merging the existing `Two Sum` entry with a record whose solution
text is `"def twoSum(self, nums, target):"` keeps the original tags and
description and gains `solution_code`, `method_name = "twoSum"` and
`method_signature = "def twoSum(self, nums, target)"`. -/
theorem C1_merge_overlay :
    (∀ (ekb kb : KB) (item : HFItem) (e : Entry) (f : String),
        pyStrip (item.problem_title.getD "") ≠ "" →
        pyGet ekb (pyLower (pyStrip (item.problem_title.getD ""))) = some e →
        f ≠ "solution_code" → f ≠ "method_name" → f ≠ "method_signature" →
        (pyGet (processHFRecord ekb kb item)
            (pyLower (pyStrip (item.problem_title.getD "")))).bind (fun m => pyGet m f) =
          pyGet e f) ∧
    pyGet (process_hf_dataset
        [("two sum",
          [("title", Value.vStr "Two Sum"),
           ("tags", Value.vList ["array", "hash-table"]),
           ("description", Value.vStr "...")])]
        [{ problem_title := some "Two Sum",
           python_solutions := some "def twoSum(self, nums, target):" }]) "two sum" =
      some [("title", Value.vStr "Two Sum"),
            ("tags", Value.vList ["array", "hash-table"]),
            ("description", Value.vStr "..."),
            ("solution_code", Value.vStr "def twoSum(self, nums, target):"),
            ("method_name", Value.vStr "twoSum"),
            ("method_signature", Value.vStr "def twoSum(self, nums, target)")] := by
  constructor
  · intro ekb kb item e f ht he h1 h2 h3
    rw [processHFRecord_stored ekb kb item ht, Option.some_bind,
      hfEnrich_frame _ _ _ h1 h2 h3]
    unfold hfBaseEntry
    rw [he]
  · rfl

/-- Witness for C1 at a concrete merged record: the untouched `tags` field of
the existing entry survives the merge. -/
theorem C1_merge_overlay_witness :
    (pyStrip ((some "Two Sum").getD "") ≠ "" ∧
     pyGet [("two sum", [("title", Value.vStr "Two Sum"), ("tags", Value.vList ["array"])])]
       (pyLower (pyStrip ((some "Two Sum").getD ""))) =
         some [("title", Value.vStr "Two Sum"), ("tags", Value.vList ["array"])]) ∧
    (pyGet (processHFRecord
        [("two sum", [("title", Value.vStr "Two Sum"), ("tags", Value.vList ["array"])])] []
        { problem_title := some "Two Sum",
          python_solutions := some "def twoSum(self, nums, target):" })
        (pyLower (pyStrip ((some "Two Sum").getD "")))).bind (fun m => pyGet m "tags") =
      pyGet [("title", Value.vStr "Two Sum"), ("tags", Value.vList ["array"])] "tags" :=
  ⟨⟨by decide, by rfl⟩,
   C1_merge_overlay.1 _ _ _ _ "tags" (by decide) (by rfl) (by decide) (by decide) (by decide)⟩

/-- C10: a HuggingFace record whose key is not in the existing KB always gets
`tags = []` and `description = str(post_title)` — this pipeline computes no
tags or problem description of its own. -/
theorem C10_hf_fresh_entry :
    ∀ (ekb kb : KB) (item : HFItem),
      pyStrip (item.problem_title.getD "") ≠ "" →
      pyGet ekb (pyLower (pyStrip (item.problem_title.getD ""))) = none →
      (pyGet (processHFRecord ekb kb item) (pyLower (pyStrip (item.problem_title.getD "")))).bind
          (fun m => pyGet m "tags") = some (Value.vList []) ∧
      (pyGet (processHFRecord ekb kb item) (pyLower (pyStrip (item.problem_title.getD "")))).bind
          (fun m => pyGet m "description") = some (Value.vStr (item.post_title.getD "")) := by
  intro ekb kb item ht he
  rw [processHFRecord_stored ekb kb item ht]
  constructor <;>
  · rw [Option.some_bind, hfEnrich_frame _ _ _ (by decide) (by decide) (by decide)]
    unfold hfBaseEntry
    rw [he]
    rfl

/-- Witness for C10: a concrete fresh record gets empty tags and the
`post_title` text as description. -/
theorem C10_hf_fresh_entry_witness :
    (pyGet (processHFRecord [] [] { problem_title := some "A", post_title := some "hello" })
        (pyLower (pyStrip ((some "A").getD "")))).bind (fun m => pyGet m "tags") =
      some (Value.vList []) ∧
    (pyGet (processHFRecord [] [] { problem_title := some "A", post_title := some "hello" })
        (pyLower (pyStrip ((some "A").getD "")))).bind (fun m => pyGet m "description") =
      some (Value.vStr ((some "hello").getD "")) :=
  C10_hf_fresh_entry [] [] { problem_title := some "A", post_title := some "hello" }
    (by decide) (by decide)

/-- C6: a record all of whose candidate title fields strip to the empty string
is skipped: the KB is unchanged by that record, in both pipelines. -/
theorem C6_skip_empty_title :
    (∀ (ekb kb : KB) (item : HFItem),
        pyStrip (item.problem_title.getD "") = "" →
        processHFRecord ekb kb item = kb) ∧
    (∀ (kb : KB) (row : KRow),
        pyStrip (row.title.getD "") = "" → pyStrip (row.question_title.getD "") = "" →
        processKRow kb row = kb) := by
  constructor
  · intro ekb kb item h
    simp [processHFRecord, hfEntryKV, h]
  · intro kb row h1 h2
    have h : pyStrip (pyOr (row.title.getD "") (row.question_title.getD "")) = "" := by
      unfold pyOr
      split_ifs with hc
      · exact h2
      · exact h1
    simp [processKRow, kEntryKV, h]

/-- Witness for C6: a whitespace-only title is skipped by both pipelines. -/
theorem C6_skip_empty_title_witness :
    processHFRecord [] [("x", [])] { problem_title := some "   " } = [("x", [])] ∧
    processKRow [("x", [])] { title := some "  ", question_title := some " " } = [("x", [])] :=
  ⟨C6_skip_empty_title.1 [] [("x", [])] { problem_title := some "   " } (by decide),
   C6_skip_empty_title.2 [("x", [])] { title := some "  ", question_title := some " " }
     (by decide) (by decide)⟩

/-- C4 counterexample: the claim says a record whose difficulty fields are all
absent *or empty* yields `difficulty = "Medium"`.  In the code the default
only applies when the key is absent (`item.get('difficulty', 'Medium')`): a
present-but-empty difficulty field passes through as `""`, in both pipelines. -/
theorem C4_counterexample :
    (pyGet (process_hf_dataset [] [{ problem_title := some "A", difficulty := some "" }])
        "a").bind (fun m => pyGet m "difficulty") = some (Value.vStr "") ∧
    (pyGet (process_data [{ title := some "A", difficulty := some "" }])
        "a").bind (fun m => pyGet m "difficulty") = some (Value.vStr "") ∧
    Value.vStr "" ≠ Value.vStr "Medium" := by
  refine ⟨rfl, rfl, by decide⟩

/-- C4 (amended): the entry's difficulty is the literal `"Medium"` exactly when
the record's difficulty field is absent (for a fresh entry); a present field's
value is used verbatim, even when empty. -/
theorem C4_default_medium :
    (∀ (ekb kb : KB) (item : HFItem),
        item.difficulty = none →
        pyStrip (item.problem_title.getD "") ≠ "" →
        pyGet ekb (pyLower (pyStrip (item.problem_title.getD ""))) = none →
        (pyGet (processHFRecord ekb kb item)
            (pyLower (pyStrip (item.problem_title.getD "")))).bind
          (fun m => pyGet m "difficulty") = some (Value.vStr "Medium")) ∧
    (∀ (kb : KB) (row : KRow),
        row.difficulty = none →
        pyStrip (pyOr (row.title.getD "") (row.question_title.getD "")) ≠ "" →
        (pyGet (processKRow kb row)
            (pyLower (pyStrip (pyOr (row.title.getD "") (row.question_title.getD ""))))).bind
          (fun m => pyGet m "difficulty") = some (Value.vStr "Medium")) := by
  constructor
  · intro ekb kb item hd ht he
    rw [processHFRecord_stored ekb kb item ht, Option.some_bind,
      hfEnrich_frame _ _ _ (by decide) (by decide) (by decide)]
    unfold hfBaseEntry
    rw [he, hd]
    rfl
  · intro kb row hd ht
    rw [processKRow_stored kb row ht, Option.some_bind, hd]
    rfl

/-- Witness for C4 (amended): concrete records without a difficulty field get
`"Medium"` in both pipelines. -/
theorem C4_default_medium_witness :
    (pyGet (processHFRecord [] [] { problem_title := some "A" })
        (pyLower (pyStrip ((some "A").getD "")))).bind
      (fun m => pyGet m "difficulty") = some (Value.vStr "Medium") ∧
    (pyGet (processKRow [] { title := some "B" })
        (pyLower (pyStrip (pyOr ((some "B").getD "") (Option.getD none ""))))).bind
      (fun m => pyGet m "difficulty") = some (Value.vStr "Medium") :=
  ⟨C4_default_medium.1 [] [] { problem_title := some "A" } rfl (by decide) (by rfl),
   C4_default_medium.2 [] { title := some "B" } rfl (by decide)⟩

/-- C5 counterexample: the claim says solution text is always carried in the
optional field `solution_code` and under no other name.  The Kaggle pipeline
stores it under the field `solution` instead, unconditionally, and never
creates a `solution_code` field. -/
theorem C5_counterexample :
    (pyGet (process_data [{ title := some "A", solution := some "print(1)" }])
        "a").bind (fun m => pyGet m "solution_code") = none ∧
    (pyGet (process_data [{ title := some "A", solution := some "print(1)" }])
        "a").bind (fun m => pyGet m "solution") = some (Value.vStr "print(1)") := by
  exact ⟨rfl, rfl⟩

/-- C5 (amended): the HuggingFace pipeline carries the solution text in the
optional field `solution_code` — present exactly when the text is non-empty
(for fresh keys) — while the Kaggle pipeline stores the text under the field
`solution`, which is always present (possibly empty), and never writes
`solution_code`. -/
theorem C5_solution_fields :
    (∀ (ekb kb : KB) (item : HFItem),
        pyStrip (item.problem_title.getD "") ≠ "" →
        item.python_solutions.getD "" ≠ "" →
        (pyGet (processHFRecord ekb kb item)
            (pyLower (pyStrip (item.problem_title.getD "")))).bind
          (fun m => pyGet m "solution_code") =
            some (Value.vStr (item.python_solutions.getD ""))) ∧
    (∀ (ekb kb : KB) (item : HFItem),
        pyStrip (item.problem_title.getD "") ≠ "" →
        item.python_solutions.getD "" = "" →
        pyGet ekb (pyLower (pyStrip (item.problem_title.getD ""))) = none →
        (pyGet (processHFRecord ekb kb item)
            (pyLower (pyStrip (item.problem_title.getD "")))).bind
          (fun m => pyGet m "solution_code") = none) ∧
    (∀ (kb : KB) (row : KRow),
        pyStrip (pyOr (row.title.getD "") (row.question_title.getD "")) ≠ "" →
        (pyGet (processKRow kb row)
            (pyLower (pyStrip (pyOr (row.title.getD "") (row.question_title.getD ""))))).bind
          (fun m => pyGet m "solution") =
            some (Value.vStr (pyOr (row.solution.getD "") (row.python_solution.getD ""))) ∧
        (pyGet (processKRow kb row)
            (pyLower (pyStrip (pyOr (row.title.getD "") (row.question_title.getD ""))))).bind
          (fun m => pyGet m "solution_code") = none) := by
  refine ⟨?_, ?_, ?_⟩
  · intro ekb kb item ht hc
    rw [processHFRecord_stored ekb kb item ht, Option.some_bind,
      hfEnrich_solution_code _ _ hc]
  · intro ekb kb item ht hc he
    rw [processHFRecord_stored ekb kb item ht, Option.some_bind]
    unfold hfEnrich
    rw [if_pos hc]
    unfold hfBaseEntry
    rw [he]
    rfl
  · intro kb row ht
    rw [processKRow_stored kb row ht]
    exact ⟨rfl, rfl⟩

/-- Witness for C5 (amended), at concrete records: non-empty HF solution text
lands in `solution_code`; an HF record without solution text yields no
`solution_code`; a Kaggle row's text lands in `solution` only. -/
theorem C5_solution_fields_witness :
    (pyGet (processHFRecord [] [] { problem_title := some "A", python_solutions := some "x = 1" })
        (pyLower (pyStrip ((some "A").getD "")))).bind
      (fun m => pyGet m "solution_code") = some (Value.vStr ((some "x = 1").getD "")) ∧
    (pyGet (processHFRecord [] [] { problem_title := some "B" })
        (pyLower (pyStrip ((some "B").getD "")))).bind
      (fun m => pyGet m "solution_code") = none ∧
    (pyGet (processKRow [] { title := some "C", solution := some "y = 2" })
        (pyLower (pyStrip (pyOr ((some "C").getD "") (Option.getD none ""))))).bind
      (fun m => pyGet m "solution") =
        some (Value.vStr (pyOr ((some "y = 2").getD "") (Option.getD none ""))) :=
  ⟨C5_solution_fields.1 [] [] { problem_title := some "A", python_solutions := some "x = 1" }
     (by decide) (by decide),
   C5_solution_fields.2.1 [] [] { problem_title := some "B" } (by decide) rfl (by rfl),
   (C5_solution_fields.2.2 [] { title := some "C", solution := some "y = 2" } (by decide)).1⟩

/-- The spec's tag normalization, stated the way the spec words it: split on
commas, trim whitespace from each piece, drop pieces that are empty after
trimming. -/
def specTags (raw : String) : List String :=
  ((pySplitComma raw).map pyStrip).filter (fun t => t ≠ "")

/-- Trimming then dropping empties agrees with the code's comprehension
`[t.strip() for t in tags if t.strip()]`. -/
theorem filter_strip_comm (l : List String) :
    (l.filter (fun t => pyStrip t ≠ "")).map pyStrip =
      (l.map pyStrip).filter (fun t => t ≠ "") := by
  induction l with
  | nil => rfl
  | cons a l ih =>
    by_cases h : pyStrip a = "" <;>
      simp only [ne_eq, decide_not] at ih ⊢ <;>
      simp [List.filter_cons, h, ih]

/-- C7: the stored tags come from the first non-empty candidate tag field,
split on commas, each piece trimmed, empty pieces dropped; in particular
`"Array, Hash Table ,  "` yields `["Array", "Hash Table"]`. -/
theorem C7_tags :
    (∀ (kb : KB) (row : KRow),
        pyStrip (pyOr (row.title.getD "") (row.question_title.getD "")) ≠ "" →
        (pyGet (processKRow kb row)
            (pyLower (pyStrip (pyOr (row.title.getD "") (row.question_title.getD ""))))).bind
          (fun m => pyGet m "tags") =
            some (Value.vList (specTags (pyOr (row.tags.getD "") (row.topic_tags.getD ""))))) ∧
    specTags "Array, Hash Table ,  " = ["Array", "Hash Table"] := by
  constructor
  · intro kb row ht
    rw [processKRow_stored kb row ht, Option.some_bind]
    show some (Value.vList
        (((pySplitComma (pyOr (row.tags.getD "") (row.topic_tags.getD ""))).filter
          (fun t => pyStrip t ≠ "")).map pyStrip)) = _
    rw [filter_strip_comm]
    rfl
  · rfl

/-- Witness for C7 at a concrete row carrying the spec's example tag field. -/
theorem C7_tags_witness :
    (pyGet (processKRow [] { title := some "A", tags := some "Array, Hash Table ,  " })
        (pyLower (pyStrip (pyOr ((some "A").getD "") (Option.getD none ""))))).bind
      (fun m => pyGet m "tags") =
        some (Value.vList (specTags (pyOr ((some "Array, Hash Table ,  ").getD "")
          (Option.getD none "")))) :=
  C7_tags.1 [] { title := some "A", tags := some "Array, Hash Table ,  " } (by decide)

/-- Does the text start with the three characters `def`?  (The pattern can
only match at such a position.) -/
def startsWithDef : List Char → Bool
  | 'd' :: 'e' :: 'f' :: _ => true
  | _ => false

/-- Does `def` occur anywhere in the text? -/
def containsDef : List Char → Bool
  | [] => false
  | c :: rest => startsWithDef (c :: rest) || containsDef rest

/-- The anchored pattern fails wherever the text does not start with `def`. -/
theorem matchSigAt_eq_none_of_not_def (s : List Char) (h : startsWithDef s = false) :
    matchSigAt s = none := by
  unfold matchSigAt
  split
  · simp [startsWithDef] at h
  · rfl

/-- Unfolding equation for the search on a non-empty text. -/
theorem reSearchSig_cons (c : Char) (rest : List Char) :
    reSearchSig (c :: rest) =
      match matchSigAt (c :: rest) with
      | some (name, suffix) =>
          some (name, (c :: rest).take ((c :: rest).length - suffix.length))
      | none => reSearchSig rest := rfl

/-- The search fails on text containing no occurrence of `def`. -/
theorem reSearchSig_eq_none (s : List Char) (h : containsDef s = false) :
    reSearchSig s = none := by
  induction s with
  | nil => rfl
  | cons c rest ih =>
    rw [containsDef, Bool.or_eq_false_iff] at h
    obtain ⟨h1, h2⟩ := h
    rw [reSearchSig_cons, matchSigAt_eq_none_of_not_def _ h1]
    exact ih h2

/-- C8: signature extraction is total and its only failure mode is "no match":
on empty text and on any text not containing `def` it returns `none`, and a
record whose solution text yields no match is still stored, with the
`method_name` / `method_signature` fields exactly those of the base entry
(no enrichment, no loss). -/
theorem C8_no_match_nonfatal :
    extract_method_signature "" = none ∧
    (∀ code : String, containsDef code.data = false →
      extract_method_signature code = none) ∧
    (∀ (ekb kb : KB) (item : HFItem),
        pyStrip (item.problem_title.getD "") ≠ "" →
        extract_method_signature (item.python_solutions.getD "") = none →
        (pyGet (processHFRecord ekb kb item)
            (pyLower (pyStrip (item.problem_title.getD "")))).isSome = true ∧
        (pyGet (processHFRecord ekb kb item)
            (pyLower (pyStrip (item.problem_title.getD "")))).bind
          (fun m => pyGet m "method_name") =
          pyGet (hfBaseEntry ekb item (pyStrip (item.problem_title.getD ""))) "method_name" ∧
        (pyGet (processHFRecord ekb kb item)
            (pyLower (pyStrip (item.problem_title.getD "")))).bind
          (fun m => pyGet m "method_signature") =
          pyGet (hfBaseEntry ekb item (pyStrip (item.problem_title.getD ""))) "method_signature") := by
  refine ⟨rfl, ?_, ?_⟩
  · intro code h
    unfold extract_method_signature
    split_ifs with hc
    · rfl
    · rw [reSearchSig_eq_none _ h]
  · intro ekb kb item ht hsig
    rw [processHFRecord_stored ekb kb item ht]
    refine ⟨rfl, ?_, ?_⟩ <;>
    · rw [Option.some_bind]
      first
        | exact (hfEnrich_no_sig _ _ hsig).1
        | exact (hfEnrich_no_sig _ _ hsig).2

/-- Witness for C8 at concrete inputs: `"x = 1"` contains no `def`, extraction
returns `none`, and the record is stored untouched by enrichment apart from
`solution_code`. -/
theorem C8_no_match_nonfatal_witness :
    extract_method_signature "x = 1" = none ∧
    (pyGet (processHFRecord [] [] { problem_title := some "A", python_solutions := some "x = 1" })
        (pyLower (pyStrip ((some "A").getD "")))).bind
      (fun m => pyGet m "method_name") =
      pyGet (hfBaseEntry [] { problem_title := some "A", python_solutions := some "x = 1" }
        (pyStrip ((some "A").getD ""))) "method_name" :=
  ⟨C8_no_match_nonfatal.2.1 "x = 1" rfl,
   (C8_no_match_nonfatal.2.2 [] [] { problem_title := some "A", python_solutions := some "x = 1" }
     (by decide) (C8_no_match_nonfatal.2.1 "x = 1" rfl)).2.1⟩

/-- Leftmost-match semantics: if the anchored pattern matches at position `i`
and at no earlier position, the search returns exactly that match. -/
theorem reSearchSig_first (s : List Char) (i : Nat) (name suffix : List Char)
    (hm : matchSigAt (s.drop i) = some (name, suffix))
    (hn : ∀ j, j < i → matchSigAt (s.drop j) = none) :
    reSearchSig s =
      some (name, (s.drop i).take ((s.drop i).length - suffix.length)) := by
  induction s generalizing i with
  | nil =>
    rw [List.drop_nil] at hm
    exact Option.noConfusion hm
  | cons c rest ih =>
    cases i with
    | zero =>
      rw [List.drop_zero] at hm
      rw [reSearchSig_cons, hm]
      rfl
    | succ i =>
      have h0 : matchSigAt (c :: rest) = none := by
        have h := hn 0 (Nat.succ_pos i)
        rwa [List.drop_zero] at h
      rw [reSearchSig_cons, h0]
      show reSearchSig rest = _
      rw [List.drop_succ_cons]
      exact ih i hm (fun j hj => by
        have h := hn (j + 1) (Nat.succ_lt_succ hj)
        rwa [List.drop_succ_cons] at h)

/-- C3: the extractor uses only the first position in the text where the
declaration pattern matches, returning that callable's name and the matched
declaration text with the trailing colon stripped.  Concretely, the spec's
`class Solution` example yields `twoSum` and its full signature, and a text
with two declarations yields the first. -/
theorem C3_first_declaration :
    extract_method_signature
        "class Solution:\n    def twoSum(self, nums: List[int], target: int) -> List[int]:\n        ..." =
      some ⟨"twoSum", "def twoSum(self, nums: List[int], target: int) -> List[int]"⟩ ∧
    (∀ (code : String) (i : Nat) (name suffix : List Char),
        code ≠ "" →
        matchSigAt (code.data.drop i) = some (name, suffix) →
        (∀ j, j < i → matchSigAt (code.data.drop j) = none) →
        extract_method_signature code =
          some ⟨⟨name⟩, pyRstripColon ⟨(code.data.drop i).take
            ((code.data.drop i).length - suffix.length)⟩⟩) ∧
    extract_method_signature "def first(a):\n    pass\ndef second(b):\n    pass" =
      some ⟨"first", "def first(a)"⟩ := by
  refine ⟨rfl, ?_, rfl⟩
  intro code i name suffix hcode hm hn
  unfold extract_method_signature
  rw [if_neg hcode, reSearchSig_first code.data i name suffix hm hn]

/-- Witness for C3's leftmost-match clause: in `"x\ndef f(a):"` the pattern
first matches at position 2 and the extractor returns that match. -/
theorem C3_first_declaration_witness :
    extract_method_signature "x\ndef f(a):" =
      some ⟨⟨['f']⟩, pyRstripColon ⟨(("x\ndef f(a):".data.drop 2).take
        (("x\ndef f(a):".data.drop 2).length - 0))⟩⟩ :=
  C3_first_declaration.2.1 "x\ndef f(a):" 2 ['f'] [] (by decide) (by rfl)
    (fun j hj => by interval_cases j <;> rfl)

/-! ## The title-key invariant -/

/-- Every entry reachable under key `k` carries a `title` field whose
lowercasing equals `k`. -/
def KBInv (kb : KB) : Prop :=
  ∀ k e, pyGet kb k = some e →
    ∃ t, pyGet e "title" = some (Value.vStr t) ∧ pyLower t = k

/-- Whatever `kEntryKV` stores satisfies the title/key relation. -/
theorem kEntryKV_title (row : KRow) (k : String) (e : Entry)
    (h : kEntryKV row = some (k, e)) :
    ∃ t, pyGet e "title" = some (Value.vStr t) ∧ pyLower t = k := by
  by_cases ht : pyStrip (pyOr (row.title.getD "") (row.question_title.getD "")) = ""
  · simp only [kEntryKV] at h
    rw [if_pos ht] at h
    exact Option.noConfusion h
  · rw [kEntryKV_fields row ht] at h
    obtain ⟨hk, he⟩ := Prod.mk.injEq .. ▸ Option.some.inj h
    subst hk
    subst he
    exact ⟨pyStrip (pyOr (row.title.getD "") (row.question_title.getD "")), rfl, rfl⟩

/-- Whatever `hfEntryKV` stores satisfies the title/key relation, provided the
existing KB does. -/
theorem hfEntryKV_title (ekb : KB) (hekb : KBInv ekb) (item : HFItem) (k : String) (e : Entry)
    (h : hfEntryKV ekb item = some (k, e)) :
    ∃ t, pyGet e "title" = some (Value.vStr t) ∧ pyLower t = k := by
  simp only [hfEntryKV] at h
  by_cases ht : pyStrip (item.problem_title.getD "") = ""
  · rw [if_pos ht] at h
    exact Option.noConfusion h
  · rw [if_neg ht] at h
    obtain ⟨hk, he⟩ := Prod.mk.injEq .. ▸ Option.some.inj h
    subst hk
    subst he
    rw [hfEnrich_frame _ _ _ (by decide) (by decide) (by decide)]
    unfold hfBaseEntry
    cases hg : pyGet ekb (pyLower (pyStrip (item.problem_title.getD ""))) with
    | some e0 => exact hekb _ _ hg
    | none => exact ⟨pyStrip (item.problem_title.getD ""), rfl, rfl⟩

/-- Storing a pair that satisfies the title/key relation preserves the
invariant. -/
theorem KBInv_pySet (kb : KB) (k0 : String) (e0 : Entry) (hkb : KBInv kb)
    (h0 : ∃ t, pyGet e0 "title" = some (Value.vStr t) ∧ pyLower t = k0) :
    KBInv (pySet kb k0 e0) := by
  intro k e h
  rw [pyGet_pySet] at h
  by_cases hk : k0 = k
  · rw [if_pos hk] at h
    obtain ⟨t, h1, h2⟩ := h0
    exact ⟨t, Option.some.inj h ▸ h1, hk ▸ h2⟩
  · rw [if_neg hk] at h
    exact hkb _ _ h

/-- C2: every entry reachable under a key `k` has `title.lower() == k`; the
invariant holds for any KB built by each per-record store (Kaggle and
HuggingFace, the latter merging onto an existing KB satisfying the same
invariant) and hence for the KBs produced by both pipelines. -/
theorem C2_title_key_invariant :
    (∀ (kb : KB) (row : KRow), KBInv kb → KBInv (processKRow kb row)) ∧
    (∀ (ekb kb : KB) (item : HFItem), KBInv ekb → KBInv kb →
      KBInv (processHFRecord ekb kb item)) ∧
    (∀ rows : List KRow, KBInv (process_data rows)) ∧
    (∀ (ekb : KB) (items : List HFItem), KBInv ekb →
      KBInv (process_hf_dataset ekb items)) := by
  have hnil : KBInv [] := fun _ _ h => Option.noConfusion h
  have hK : ∀ (kb : KB) (row : KRow), KBInv kb → KBInv (processKRow kb row) := by
    intro kb row hkb
    unfold processKRow
    cases hkv : kEntryKV row with
    | none => exact hkb
    | some kv =>
      obtain ⟨k0, e0⟩ := kv
      exact KBInv_pySet kb k0 e0 hkb (kEntryKV_title row k0 e0 hkv)
  have hH : ∀ (ekb kb : KB) (item : HFItem), KBInv ekb → KBInv kb →
      KBInv (processHFRecord ekb kb item) := by
    intro ekb kb item hekb hkb
    unfold processHFRecord
    cases hkv : hfEntryKV ekb item with
    | none => exact hkb
    | some kv =>
      obtain ⟨k0, e0⟩ := kv
      exact KBInv_pySet kb k0 e0 hkb (hfEntryKV_title ekb hekb item k0 e0 hkv)
  refine ⟨hK, hH, ?_, ?_⟩
  · intro rows
    suffices hgen : ∀ (init : KB), KBInv init → KBInv (rows.foldl processKRow init) from
      hgen [] hnil
    induction rows with
    | nil => exact fun init h => h
    | cons r rows ih => exact fun init h => ih (processKRow init r) (hK init r h)
  · intro ekb items hekb
    suffices hgen : ∀ (init : KB), KBInv init →
        KBInv (items.foldl (processHFRecord ekb) init) from hgen [] hnil
    induction items with
    | nil => exact fun init h => h
    | cons it items ih =>
      exact fun init h => ih (processHFRecord ekb init it) (hH ekb init it hekb h)

/-- Witness for C2: the invariant holds concretely for a one-record
HuggingFace run over the empty existing KB. -/
theorem C2_title_key_invariant_witness :
    KBInv (process_hf_dataset [] [{ problem_title := some "Two Sum" }]) :=
  C2_title_key_invariant.2.2.2 [] [{ problem_title := some "Two Sum" }]
    (fun _ _ h => Option.noConfusion h)

/-! ## Last-write-wins -/

/-- Looking up a key after folding a sequence of dict stores yields the last
stored value for that key, or falls back to the initial dict. -/
theorem pyGet_foldl_pySet {α : Type} (kvs : List (String × α))
    (init : List (String × α)) (k : String) :
    pyGet (kvs.foldl (fun d p => pySet d p.1 p.2) init) k =
      match (kvs.filter (fun p => decide (p.1 = k))).getLast? with
      | some p => some p.2
      | none => pyGet init k := by
  induction kvs using List.reverseRecOn with
  | nil => rfl
  | append_singleton kvs p ih =>
    rw [List.foldl_append, List.foldl_cons, List.foldl_nil, pyGet_pySet,
      List.filter_append, List.filter_cons, List.filter_nil]
    by_cases hp : p.1 = k
    · rw [if_pos hp, if_pos (by simpa using hp), List.getLast?_concat]
    · rw [if_neg hp, if_neg (by simpa using hp), List.append_nil, ih]

/-- The HuggingFace pass is the fold of plain dict stores over the per-record
key/entry pairs. -/
theorem process_hf_dataset_eq_foldl (ekb : KB) (items : List HFItem) (init : KB) :
    items.foldl (processHFRecord ekb) init =
      (items.filterMap (hfEntryKV ekb)).foldl (fun d p => pySet d p.1 p.2) init := by
  induction items generalizing init with
  | nil => rfl
  | cons it items ih =>
    rw [List.foldl_cons, List.filterMap_cons]
    cases hkv : hfEntryKV ekb it with
    | none =>
      rw [ih]
      congr 1
      simp [processHFRecord, hkv]
    | some kv =>
      obtain ⟨k0, e0⟩ := kv
      rw [List.foldl_cons, ih]
      congr 1
      simp [processHFRecord, hkv]

/-- The Kaggle pass is the fold of plain dict stores over the per-row
key/entry pairs. -/
theorem process_data_eq_foldl (rows : List KRow) (init : KB) :
    rows.foldl processKRow init =
      (rows.filterMap kEntryKV).foldl (fun d p => pySet d p.1 p.2) init := by
  induction rows generalizing init with
  | nil => rfl
  | cons r rows ih =>
    rw [List.foldl_cons, List.filterMap_cons]
    cases hkv : kEntryKV r with
    | none =>
      rw [ih]
      congr 1
      simp [processKRow, hkv]
    | some kv =>
      obtain ⟨k0, e0⟩ := kv
      rw [List.foldl_cons, ih]
      congr 1
      simp [processKRow, hkv]

/-- C9: within one pass, the final KB maps each key to the entry computed from
the last record resolving to that key (last-write-wins); earlier entries for
the key are not retained.  Holds for both pipelines. -/
theorem C9_last_write_wins :
    (∀ (ekb : KB) (items : List HFItem) (k : String),
        pyGet (process_hf_dataset ekb items) k =
          (((items.filterMap (hfEntryKV ekb)).filter
            (fun p => decide (p.1 = k))).getLast?).map Prod.snd) ∧
    (∀ (rows : List KRow) (k : String),
        pyGet (process_data rows) k =
          (((rows.filterMap kEntryKV).filter
            (fun p => decide (p.1 = k))).getLast?).map Prod.snd) := by
  constructor
  · intro ekb items k
    unfold process_hf_dataset
    rw [process_hf_dataset_eq_foldl ekb items [], pyGet_foldl_pySet]
    cases ((items.filterMap (hfEntryKV ekb)).filter (fun p => decide (p.1 = k))).getLast? <;> rfl
  · intro rows k
    unfold process_data
    rw [process_data_eq_foldl rows [], pyGet_foldl_pySet]
    cases ((rows.filterMap kEntryKV).filter (fun p => decide (p.1 = k))).getLast? <;> rfl
